import Mathlib

/-!
Verification of the BitsKee pixelation engine and drawing grid.

The definitions below are a shallow embedding of the two source modules:

* scripts/pixelate.js : the Pixelator object (palettes, applyColorMode,
  pixelate geometry and rendering);
* scripts/canvas.js   : the DrawingCanvas object (resize, drawCell, getAscii).

JavaScript numbers are embedded as follows.  Integer-valued quantities
(pixel channel values, grid coordinates, canvas dimensions) become Int or
Nat.  The intermediate real arithmetic of the engine (divisions taken
before Math.floor, the display scale, block widths) is embedded in the
rationals; none of the claims checked here sits close enough to a binary
rounding boundary for the double/rational difference to matter, and the
deviations that do exist (IEEE division by zero, NaN comparisons) are
handled by explicit case splits noted at the definition concerned.
-/

namespace BitsKee

/-- An RGB triple.  Channel values are embedded as integers; the engine
only ever reads channels from a decoded image buffer (0..255) but the
definitions are total. -/
abbrev RGB : Type := ℤ × ℤ × ℤ

/-- Squared Euclidean RGB distance.  The source computes
Math.sqrt(Math.pow(r-c0,2)+...) and compares distances with a strict
less-than; the square root is strictly monotone, so the comparison of
square roots in the loop coincides with the comparison of the squared
distances used here (the doubles involved are exact for squared sums up
to 3*255^2, and correctly rounded square roots of distinct integers in
that range never collide). -/
def distSq (a b : RGB) : ℤ :=
  (a.1 - b.1) ^ 2 + (a.2.1 - b.2.1) ^ 2 + (a.2.2 - b.2.2) ^ 2

/-- The fixed 16-color palette (Pixelator.palettes, key 16). -/
def palette16 : List RGB :=
  [(0, 0, 0), (128, 0, 0), (0, 128, 0), (128, 128, 0),
   (0, 0, 128), (128, 0, 128), (0, 128, 128), (192, 192, 192),
   (128, 128, 128), (255, 0, 0), (0, 255, 0), (255, 255, 0),
   (0, 0, 255), (255, 0, 255), (0, 255, 255), (255, 255, 255)]

/-- The fixed 8-color palette (Pixelator.palettes, key 8). -/
def palette8 : List RGB :=
  [(0, 0, 0), (255, 0, 0), (0, 255, 0), (0, 0, 255),
   (255, 255, 0), (255, 0, 255), (0, 255, 255), (255, 255, 255)]

/-- The fixed 1-bit palette (Pixelator.palettes, key 1bit). -/
def palette1bit : List RGB := [(0, 0, 0), (255, 255, 255)]

/-- Palette lookup, Pixelator.palettes[mode].  The source object maps
the key grayscale to null, which the falsy-guard in applyColorMode
treats exactly like an absent key, so both are embedded as none. -/
def palettes (mode : String) : Option (List RGB) :=
  if mode = "16" then some palette16
  else if mode = "8" then some palette8
  else if mode = "1bit" then some palette1bit
  else none

/-- One iteration of the nearest-color loop of applyColorMode.  The
accumulator carries the current nearestColor together with minDistance,
where none stands for the initial Infinity (every first comparison
distance < Infinity succeeds). -/
def nearestStep (c : RGB) (acc : RGB × Option ℤ) (p : RGB) : RGB × Option ℤ :=
  match acc.2 with
  | none => (p, some (distSq c p))
  | some d => if distSq c p < d then (p, some (distSq c p)) else acc

/-- The nearest-color search of applyColorMode: nearestColor starts at
palette[0] (headD; every palette passed in is nonempty), minDistance at
Infinity, then the loop updates on strict improvement only. -/
def findNearest (pal : List RGB) (c : RGB) : RGB :=
  (pal.foldl (nearestStep c) (pal.headD c, none)).1

/-- JavaScript Math.round: round half away from zero; for the
nonnegative values produced by the grayscale formula this is
floor(x + 1/2). -/
def jsRound (q : ℚ) : ℤ := ⌊q + 1 / 2⌋

/-- Pixelator.applyColorMode(r, g, b, mode): identity for full, the
luma formula for grayscale, nearest palette color for a recognized
palette key, and identity when the palette lookup is falsy. -/
def applyColorMode (r g b : ℤ) (mode : String) : RGB :=
  if mode = "full" then (r, g, b)
  else if mode = "grayscale" then
    let gray : ℤ := jsRound ((0.299 : ℚ) * r + (0.587 : ℚ) * g + (0.114 : ℚ) * b)
    (gray, gray, gray)
  else
    match palettes mode with
    | none => (r, g, b)
    | some pal => findNearest pal (r, g, b)

/-- The nearest-color loop with the Infinity sentinel removed: once the
first element has been processed, minDistance always equals the distance
of the current best, so the loop is an argmin fold on the best alone. -/
def nearestFold (c : RGB) (b : RGB) (l : List RGB) : RGB :=
  l.foldl (fun best p => if distSq c p < distSq c best then p else best) b

theorem nearestStep_fold_eq (c : RGB) :
    ∀ (l : List RGB) (b : RGB),
      l.foldl (nearestStep c) (b, some (distSq c b)) =
        (nearestFold c b l, some (distSq c (nearestFold c b l))) := by
  intro l
  induction l with
  | nil => intro b; rfl
  | cons p rest ih =>
    intro b
    simp only [List.foldl_cons, nearestFold, nearestStep]
    by_cases h : distSq c p < distSq c b
    · simp only [h, if_pos h]
      exact ih p
    · simp only [h, if_neg h]
      exact ih b

theorem findNearest_cons (c p₀ : RGB) (ps : List RGB) :
    findNearest (p₀ :: ps) c = nearestFold c p₀ ps := by
  simp only [findNearest, List.headD_cons, List.foldl_cons]
  have h1 : nearestStep c (p₀, none) p₀ = (p₀, some (distSq c p₀)) := rfl
  rw [h1, nearestStep_fold_eq]

/-- The argmin fold returns the first element achieving the minimal
distance: either the initial best with nothing in the list beating it,
or a list element that strictly beats the initial best and everything
before it, and that nothing after it beats. -/
theorem nearestFold_spec (c : RGB) :
    ∀ (l : List RGB) (b : RGB),
      (nearestFold c b l = b ∧ ∀ p ∈ l, distSq c b ≤ distSq c p) ∨
      (∃ u v, l = u ++ nearestFold c b l :: v ∧
        distSq c (nearestFold c b l) < distSq c b ∧
        (∀ p ∈ u, distSq c (nearestFold c b l) < distSq c p) ∧
        (∀ p ∈ v, distSq c (nearestFold c b l) ≤ distSq c p)) := by
  intro l
  induction l with
  | nil => intro b; exact Or.inl ⟨rfl, by simp⟩
  | cons p rest ih =>
    intro b
    by_cases h : distSq c p < distSq c b
    · have hfold : nearestFold c b (p :: rest) = nearestFold c p rest := by
        simp only [nearestFold, List.foldl_cons, if_pos h]
      rcases ih p with ⟨heq, hmin⟩ | ⟨u, v, hsplit, hlt, hu, hv⟩
      · refine Or.inr ⟨[], rest, ?_, ?_, ?_, ?_⟩
        · rw [hfold, heq, List.nil_append]
        · rw [hfold, heq]; exact h
        · simp
        · rw [hfold, heq]; exact hmin
      · refine Or.inr ⟨p :: u, v, ?_, ?_, ?_, ?_⟩
        · rw [hfold]; exact congrArg (List.cons p) hsplit
        · rw [hfold]; exact lt_trans hlt h
        · rw [hfold]
          intro q hq
          rcases List.mem_cons.mp hq with hq | hq
          · subst hq; exact hlt
          · exact hu q hq
        · rw [hfold]; exact hv
    · have hfold : nearestFold c b (p :: rest) = nearestFold c b rest := by
        simp only [nearestFold, List.foldl_cons, if_neg h]
      rcases ih b with ⟨heq, hmin⟩ | ⟨u, v, hsplit, hlt, hu, hv⟩
      · refine Or.inl ⟨by rw [hfold, heq], ?_⟩
        intro q hq
        rcases List.mem_cons.mp hq with hq | hq
        · subst hq; exact le_of_not_lt h
        · exact hmin q hq
      · refine Or.inr ⟨p :: u, v, ?_, ?_, ?_, ?_⟩
        · rw [hfold]; exact congrArg (List.cons p) hsplit
        · rw [hfold]; exact hlt
        · rw [hfold]
          intro q hq
          rcases List.mem_cons.mp hq with hq | hq
          · subst hq; exact lt_of_lt_of_le hlt (le_of_not_lt h)
          · exact hu q hq
        · rw [hfold]; exact hv

/-- On a nonempty palette, findNearest returns an entry of minimal
squared distance, and every entry strictly before it in the palette
has strictly greater distance (the first-encountered tie-break). -/
theorem findNearest_first_min (c p₀ : RGB) (ps : List RGB) :
    ∃ u v, p₀ :: ps = u ++ findNearest (p₀ :: ps) c :: v ∧
      (∀ p ∈ u, distSq c (findNearest (p₀ :: ps) c) < distSq c p) ∧
      (∀ p ∈ p₀ :: ps, distSq c (findNearest (p₀ :: ps) c) ≤ distSq c p) := by
  rw [findNearest_cons]
  rcases nearestFold_spec c ps p₀ with ⟨heq, hmin⟩ | ⟨u, v, hsplit, hlt, hu, hv⟩
  · refine ⟨[], ps, by rw [heq, List.nil_append], by simp, ?_⟩
    intro p hp
    rcases List.mem_cons.mp hp with hp | hp
    · rw [heq, hp]
    · rw [heq]; exact hmin p hp
  · refine ⟨p₀ :: u, v, congrArg (List.cons p₀) hsplit, ?_, ?_⟩
    · intro p hp
      rcases List.mem_cons.mp hp with hp | hp
      · subst hp; exact hlt
      · exact hu p hp
    · intro p hp
      rcases List.mem_cons.mp hp with hp | hp
      · subst hp; exact le_of_lt hlt
      · rw [hsplit] at hp
        rcases List.mem_append.mp hp with hp | hp
        · exact le_of_lt (hu p hp)
        · rcases List.mem_cons.mp hp with hp | hp
          · rw [hp]
          · exact hv p hp

theorem findNearest_mem (c p₀ : RGB) (ps : List RGB) :
    findNearest (p₀ :: ps) c ∈ p₀ :: ps := by
  obtain ⟨u, v, hsplit, -, -⟩ := findNearest_first_min c p₀ ps
  have h2 : findNearest (p₀ :: ps) c ∈ u ++ findNearest (p₀ :: ps) c :: v :=
    List.mem_append.mpr (Or.inr (List.mem_cons_self _ _))
  rwa [← hsplit] at h2

theorem distSq_self (a : RGB) : distSq a a = 0 := by
  simp [distSq]

theorem distSq_nonneg (a b : RGB) : 0 ≤ distSq a b := by
  have h1 := sq_nonneg (a.1 - b.1)
  have h2 := sq_nonneg (a.2.1 - b.2.1)
  have h3 := sq_nonneg (a.2.2 - b.2.2)
  simp only [distSq]
  linarith

theorem distSq_eq_zero {a b : RGB} (h : distSq a b = 0) : a = b := by
  have h1 := sq_nonneg (a.1 - b.1)
  have h2 := sq_nonneg (a.2.1 - b.2.1)
  have h3 := sq_nonneg (a.2.2 - b.2.2)
  simp only [distSq] at h
  have e1 : (a.1 - b.1) ^ 2 = 0 := by linarith
  have e2 : (a.2.1 - b.2.1) ^ 2 = 0 := by linarith
  have e3 : (a.2.2 - b.2.2) ^ 2 = 0 := by linarith
  have f1 : a.1 = b.1 := by nlinarith [sq_abs (a.1 - b.1)]
  have f2 : a.2.1 = b.2.1 := by nlinarith [sq_abs (a.2.1 - b.2.1)]
  have f3 : a.2.2 = b.2.2 := by nlinarith [sq_abs (a.2.2 - b.2.2)]
  exact Prod.ext f1 (Prod.ext f2 f3)

/-- Any palette entry is a fixed point of the nearest-color search. -/
theorem findNearest_fixed (p₀ : RGB) (ps : List RGB) {c : RGB}
    (hc : c ∈ p₀ :: ps) : findNearest (p₀ :: ps) c = c := by
  obtain ⟨-, -, -, -, hmin⟩ := findNearest_first_min c p₀ ps
  have hle := hmin c hc
  rw [distSq_self] at hle
  have hz : distSq c (findNearest (p₀ :: ps) c) = 0 :=
    le_antisymm hle (distSq_nonneg _ _)
  exact (distSq_eq_zero hz).symm

/-- The options record passed to pixelate.  A field holds none when the
caller omitted it (undefined in the source). -/
structure Options where
  pixelSize : Option ℤ := none
  colorMode : Option String := none
  showGrid : Option Bool := none

/-- options.pixelSize with the default 8 substituted by the JavaScript
or-operator: the falsy number 0 (and an absent field) give 8, every
other number is taken as is. -/
def Options.effPixelSize (o : Options) : ℤ :=
  match o.pixelSize with
  | none => 8
  | some v => if v = 0 then 8 else v

/-- options.colorMode with the default full substituted: the falsy
empty string and an absent field give full. -/
def Options.effColorMode (o : Options) : String :=
  match o.colorMode with
  | none => "full"
  | some s => if s = "" then "full" else s

/-- options.showGrid with the default false substituted (false or-ed
with false is false). -/
def Options.effShowGrid (o : Options) : Bool :=
  match o.showGrid with
  | none => false
  | some b => b

/-- A decoded source image: integer dimensions plus a readable pixel
buffer.  The buffer is a total function; the engine reads it only inside
the image bounds. -/
structure Image where
  width : ℕ
  height : ℕ
  pixel : ℕ → ℕ → RGB

/-- Math.floor(image.width / pixelSize), the sample grid width.  The
effective pixelSize is never 0 (0 is falsy and defaulted to 8), so the
rational division agrees with the IEEE one. -/
def sampleW (img : Image) (ps : ℤ) : ℤ := ⌊(img.width : ℚ) / (ps : ℚ)⌋

/-- Math.floor(image.height / pixelSize), the sample grid height. -/
def sampleH (img : Image) (ps : ℤ) : ℤ := ⌊(img.height : ℚ) / (ps : ℚ)⌋

/-- Math.min(400 / scaledWidth, 400 / scaledHeight, pixelSize).  In
IEEE arithmetic 400 / 0 is positive Infinity and drops out of the
minimum, which the case split reproduces (the rationals have no
Infinity). -/
def scaleFactor (sW sH ps : ℤ) : ℚ :=
  if sW = 0 then
    (if sH = 0 then (ps : ℚ) else min (400 / (sH : ℚ)) (ps : ℚ))
  else if sH = 0 then min (400 / (sW : ℚ)) (ps : ℚ)
  else min (400 / (sW : ℚ)) (min (400 / (sH : ℚ)) (ps : ℚ))

/-- canvasWidth = Math.floor(scaledWidth * scale). -/
def canvasW (img : Image) (ps : ℤ) : ℤ :=
  ⌊(sampleW img ps : ℚ) * scaleFactor (sampleW img ps) (sampleH img ps) ps⌋

/-- canvasHeight = Math.floor(scaledHeight * scale). -/
def canvasH (img : Image) (ps : ℤ) : ℤ :=
  ⌊(sampleH img ps : ℚ) * scaleFactor (sampleW img ps) (sampleH img ps) ps⌋

/-- blockW = canvasWidth / scaledWidth.  When the sample width is 0 the
source computes 0 / 0 = NaN, for which every comparison is false; the
rational convention 0 / 0 = 0 fails the only comparison made on it
(blockW >= 3) as well, so the two agree on all control flow. -/
def blockW (img : Image) (ps : ℤ) : ℚ := (canvasW img ps : ℚ) / (sampleW img ps : ℚ)

/-- blockH = canvasHeight / scaledHeight; see blockW for the 0 / 0 case. -/
def blockH (img : Image) (ps : ℤ) : ℚ := (canvasH img ps : ℚ) / (sampleH img ps : ℚ)

/-- Modelled from the spec: the browser operation drawImage with
imageSmoothingEnabled = false (scripts/pixelate.js draws the image onto
a scaledWidth-by-scaledHeight temp canvas and reads it back).  The spec
calls for hard-edged single-representative sampling; the embedding reads
the source pixel at the center of each sample cell.  None of the claims
depends on which in-cell representative is chosen. -/
def samplePixel (img : Image) (sW sH : ℕ) (x y : ℕ) : RGB :=
  img.pixel ((2 * x + 1) * img.width / (2 * sW)) ((2 * y + 1) * img.height / (2 * sH))

/-- The double rendering loop enumerates sample cells row-major: y is
the outer loop, x the inner one. -/
def blockList (sW sH : ℕ) : List (ℕ × ℕ) :=
  (List.range sH).flatMap (fun y => (List.range sW).map (fun x => (x, y)))

/-- A painted canvas: the RGB value at each integer coordinate.  The
engine never reads the canvas back, so alpha need not be tracked. -/
abbrev Canvas : Type := ℤ → ℤ → RGB

/-- ctx.fillRect(x0, y0, w, h) with a solid color: later fills
overwrite earlier ones on overlap. -/
def fillRect (x0 y0 w h : ℤ) (c : RGB) (cv : Canvas) : Canvas :=
  fun px py =>
    if x0 ≤ px ∧ px < x0 + w ∧ y0 ≤ py ∧ py < y0 + h then c else cv px py

/-- The color a sample cell is filled with: the sampled pixel run
through applyColorMode. -/
def blockColor (img : Image) (ps : ℤ) (mode : String) (x y : ℕ) : RGB :=
  let c := samplePixel img (sampleW img ps).toNat (sampleH img ps).toNat x y
  applyColorMode c.1 c.2.1 c.2.2 mode

/-- The block-fill pass of pixelate: every sample cell (x, y) is filled
at origin (floor(x * blockW), floor(y * blockH)) with size
(ceil(blockW), ceil(blockH)).  The canvas starts out black (the source
canvas starts transparent black; the engine never reads it back). -/
def paintBlocks (img : Image) (ps : ℤ) (mode : String) : Canvas :=
  (blockList (sampleW img ps).toNat (sampleH img ps).toNat).foldl
    (fun cv xy =>
      fillRect ⌊(xy.1 : ℚ) * blockW img ps⌋ ⌊(xy.2 : ℚ) * blockH img ps⌋
        ⌈blockW img ps⌉ ⌈blockH img ps⌉ (blockColor img ps mode xy.1 xy.2) cv)
    (fun _ _ => (0, 0, 0))

/-- Compositing rgba(0, 0, 0, 0.3) over a solid color: each channel
keeps 70 percent of its value (rounded as the browser rasterizer
does). -/
def darken (c : RGB) : RGB :=
  (jsRound ((7 * c.1 : ℚ) / 10), jsRound ((7 * c.2.1 : ℚ) / 10),
    jsRound ((7 * c.2.2 : ℚ) / 10))

/-- Whether the output column px lies on one of the vertical grid
strokes: the stroke for boundary x is 1 unit wide centered on
floor(x * blockW) + 0.5, so it covers exactly column floor(x * blockW). -/
def onVLine (img : Image) (ps : ℤ) (px : ℤ) : Bool :=
  (List.range ((sampleW img ps).toNat + 1)).any
    (fun x => px = ⌊(x : ℚ) * blockW img ps⌋)

/-- Whether the output row py lies on one of the horizontal grid
strokes. -/
def onHLine (img : Image) (ps : ℤ) (py : ℤ) : Bool :=
  (List.range ((sampleH img ps).toNat + 1)).any
    (fun y => py = ⌊(y : ℚ) * blockH img ps⌋)

/-- The grid overlay pass: each vertical and each horizontal stroke
composites 30 percent black over what it covers (a pixel on both a
vertical and a horizontal stroke is darkened twice). -/
def gridPass (img : Image) (ps : ℤ) (cv : Canvas) : Canvas :=
  fun px py =>
    let c1 := if onVLine img ps px then darken (cv px py) else cv px py
    if onHLine img ps py then darken c1 else c1

/-- The output raster: the canvas dimensions Pixelator.pixelate assigns
to the target canvas, plus the painted content. -/
structure Raster where
  width : ℤ
  height : ℤ
  pix : Canvas

/-- Pixelator.pixelate after option defaulting: computes the sample
grid and output geometry, paints every block, and runs the grid overlay
pass exactly when showGrid is set and both block dimensions are at
least 3. -/
def pixelateCore (img : Image) (ps : ℤ) (mode : String) (grid : Bool) : Raster :=
  { width := canvasW img ps
    height := canvasH img ps
    pix :=
      if grid = true ∧ 3 ≤ blockW img ps ∧ 3 ≤ blockH img ps then
        gridPass img ps (paintBlocks img ps mode)
      else
        paintBlocks img ps mode }

/-- Pixelator.pixelate(image, options, targetCanvas): the three option
reads with their JavaScript or-defaults feed pixelateCore. -/
def pixelate (img : Image) (o : Options) : Raster :=
  pixelateCore img o.effPixelSize o.effColorMode o.effShowGrid

/-- The DrawingCanvas state: dimensions plus the 2D cell array.  The
source stores each cell as a DOM element whose textContent holds the
character; the embedding keeps just the character (arena plus index,
decoupled from rendering). -/
structure DrawGrid where
  width : ℕ
  height : ℕ
  cells : List (List Char)

/-- Math.max(10, Math.min(200, width)); the result is at least 10, so it
is returned as a natural number. -/
def clampW (w : ℤ) : ℕ := (max 10 (min 200 w)).toNat

/-- Math.max(5, Math.min(100, height)). -/
def clampH (h : ℤ) : ℕ := (max 5 (min 100 h)).toNat

/-- createGrid: every cell reset to the blank character. -/
def createGrid (w h : ℕ) : List (List Char) :=
  List.replicate h (List.replicate w ' ')

/-- DrawingCanvas.resize(width, height): clamp both dimensions, then
rebuild the grid from scratch (createGrid discards all content). -/
def DrawGrid.resize (_g : DrawGrid) (w h : ℤ) : DrawGrid :=
  { width := clampW w, height := clampH h, cells := createGrid (clampW w) (clampH h) }

/-- DrawingCanvas.drawCell writes the current character into an existing
cell element; the element is located from the pointer event, and
coordinates outside the grid have no element, so nothing happens there.
Embedded as the bounds-guarded coordinate update the spec calls
setCell(x, y, char). -/
def DrawGrid.setCell (g : DrawGrid) (x y : ℤ) (c : Char) : DrawGrid :=
  if 0 ≤ x ∧ x < (g.width : ℤ) ∧ 0 ≤ y ∧ y < (g.height : ℤ) then
    { g with
      cells := g.cells.set y.toNat ((g.cells.getD y.toNat []).set x.toNat c) }
  else g

/-- DrawingCanvas.getAscii: for each row index below height, append the
characters of the cells that exist (the source guards each access with
if cells[y] and cells[y][x]), then a newline — including after the last
row. -/
def DrawGrid.getAscii (g : DrawGrid) : List Char :=
  (List.range g.height).flatMap (fun y =>
    (List.range g.width).filterMap
      (fun x => (g.cells.get? y).bind (fun row => row.get? x)) ++ ['\n'])

/-- Well-formedness of a grid state: the cell array is rectangular with
the stored dimensions.  Every state the source can reach (createGrid
followed by cell writes) satisfies it. -/
def DrawGrid.Wf (g : DrawGrid) : Prop :=
  g.cells.length = g.height ∧ ∀ row ∈ g.cells, row.length = g.width

theorem filterMap_get_self : ∀ (row : List Char),
    (List.range row.length).filterMap (fun x => row.get? x) = row := by
  intro row
  induction row with
  | nil => rfl
  | cons a rest ih =>
    show (List.range (rest.length + 1)).filterMap (fun x => (a :: rest).get? x) = a :: rest
    rw [List.range_succ_eq_map, List.filterMap_cons]
    simp only [List.get?_cons_zero, List.filterMap_map]
    have hcomp : ((fun x => (a :: rest).get? x) ∘ Nat.succ) = fun x => rest.get? x := by
      funext x
      simp [List.get?_cons_succ]
    rw [hcomp, ih]

theorem getAscii_rows : ∀ (cells : List (List Char)) (W : ℕ),
    (∀ row ∈ cells, row.length = W) →
    (List.range cells.length).flatMap (fun y =>
        (List.range W).filterMap (fun x => (cells.get? y).bind (fun row => row.get? x))
          ++ ['\n'])
      = cells.flatMap (fun row => row ++ ['\n']) := by
  intro cells
  induction cells with
  | nil => intro W _; rfl
  | cons r rest ih =>
    intro W hW
    show (List.range (rest.length + 1)).flatMap _ = _
    rw [List.range_succ_eq_map, List.flatMap_cons, List.flatMap_cons]
    have hr : r.length = W := hW r (List.mem_cons_self _ _)
    have hhead :
        (List.range W).filterMap (fun x => ((r :: rest).get? 0).bind (fun row => row.get? x))
          ++ ['\n'] = r ++ ['\n'] := by
      simp only [List.get?_cons_zero, Option.some_bind]
      rw [← hr, filterMap_get_self]
    have hmap : (List.map Nat.succ (List.range rest.length)).flatMap (fun y =>
        (List.range W).filterMap (fun x => ((r :: rest).get? y).bind (fun row => row.get? x))
          ++ ['\n'])
        = (List.range rest.length).flatMap (fun y =>
            (List.range W).filterMap (fun x => (rest.get? y).bind (fun row => row.get? x))
              ++ ['\n']) := by
      rw [List.flatMap_map]
      rfl
    rw [hhead, hmap, ih W (fun row hrow => hW row (List.mem_cons_of_mem _ hrow))]

/-- On a well-formed grid, getAscii is the concatenation of the rows,
each terminated by a newline. -/
theorem DrawGrid.getAscii_eq_rows (g : DrawGrid) (hwf : g.Wf) :
    g.getAscii = g.cells.flatMap (fun row => row ++ ['\n']) := by
  obtain ⟨hlen, hrows⟩ := hwf
  unfold DrawGrid.getAscii
  rw [← hlen]
  exact getAscii_rows g.cells g.width hrows

theorem flatMap_replicate (n : ℕ) (a : List Char) (f : List Char → List Char) :
    (List.replicate n a).flatMap f = (List.replicate n (f a)).flatten := by
  induction n with
  | zero => rfl
  | succ m ih => rw [List.replicate_succ, List.replicate_succ, List.flatMap_cons,
      List.flatten_cons, ih]

/-- Indexing into a newline-terminated row concatenation: position
y * (W + 1) + x falls in row y at offset x. -/
theorem flatMap_rows_get : ∀ (cells : List (List Char)) (W y x : ℕ),
    (∀ row ∈ cells, row.length = W) → x < W + 1 →
    (cells.flatMap (fun row => row ++ ['\n'])).get? (y * (W + 1) + x)
      = (cells.get? y).bind (fun row => (row ++ ['\n']).get? x) := by
  intro cells
  induction cells with
  | nil => intro W y x _ _; simp
  | cons r rest ih =>
    intro W y x hW hx
    have hr : (r ++ ['\n']).length = W + 1 := by
      simp [hW r (List.mem_cons_self _ _)]
    rw [List.flatMap_cons]
    cases y with
    | zero =>
      rw [List.get?_append (by omega : 0 * (W + 1) + x < (r ++ ['\n']).length)]
      simp
    | succ y' =>
      have hle : (r ++ ['\n']).length ≤ (y' + 1) * (W + 1) + x := by
        rw [hr]; ring_nf; omega
      rw [List.get?_append_right hle]
      have harith : (y' + 1) * (W + 1) + x - (r ++ ['\n']).length = y' * (W + 1) + x := by
        rw [hr]; ring_nf; omega
      rw [harith, ih W y' x (fun row hrow => hW row (List.mem_cons_of_mem _ hrow)) hx]
      rfl

theorem applyColorMode_eq_findNearest {mode : String} {pal : List RGB}
    (h1 : mode ≠ "full") (h2 : mode ≠ "grayscale") (h3 : palettes mode = some pal)
    (r g b : ℤ) : applyColorMode r g b mode = findNearest pal (r, g, b) := by
  unfold applyColorMode
  rw [if_neg h1, if_neg h2, h3]

theorem palette_mode_cases {mode : String} {pal : List RGB}
    (hmode : mode ∈ (["16", "8", "1bit"] : List String))
    (hpal : palettes mode = some pal) :
    mode ≠ "full" ∧ mode ≠ "grayscale" ∧ ∃ p₀ ps, pal = p₀ :: ps := by
  fin_cases hmode
  · refine ⟨by decide, by decide, ?_⟩
    have : pal = palette16 := by simpa [palettes] using hpal.symm
    exact ⟨_, _, by rw [this]; rfl⟩
  · refine ⟨by decide, by decide, ?_⟩
    have : pal = palette8 := by simpa [palettes] using hpal.symm
    exact ⟨_, _, by rw [this]; rfl⟩
  · refine ⟨by decide, by decide, ?_⟩
    have : pal = palette1bit := by simpa [palettes] using hpal.symm
    exact ⟨_, _, by rw [this]; rfl⟩

/-- C3: for every channel triple in range and each of the three palette
modes, applyColorMode returns a palette entry of minimal Euclidean RGB
distance, every entry strictly before it in the palette enumeration
being strictly farther (first-encountered tie-break); in particular the
1-bit palette maps (10,10,10) to black and (240,240,240) to white. -/
theorem C3_nearest_palette :
    (∀ (r g b : ℤ) (mode : String) (pal : List RGB),
        0 ≤ r → r ≤ 255 → 0 ≤ g → g ≤ 255 → 0 ≤ b → b ≤ 255 →
        mode ∈ (["16", "8", "1bit"] : List String) →
        palettes mode = some pal →
        ∃ u v, pal = u ++ applyColorMode r g b mode :: v ∧
          (∀ p ∈ u, distSq (r, g, b) (applyColorMode r g b mode) < distSq (r, g, b) p) ∧
          (∀ p ∈ pal, distSq (r, g, b) (applyColorMode r g b mode) ≤ distSq (r, g, b) p)) ∧
    applyColorMode 10 10 10 "1bit" = (0, 0, 0) ∧
    applyColorMode 240 240 240 "1bit" = (255, 255, 255) := by
  refine ⟨?_, by decide, by decide⟩
  intro r g b mode pal _ _ _ _ _ _ hmode hpal
  obtain ⟨h1, h2, p₀, ps, rfl⟩ := palette_mode_cases hmode hpal
  rw [applyColorMode_eq_findNearest h1 h2 hpal]
  exact findNearest_first_min (r, g, b) p₀ ps

theorem C3_nearest_palette_witness :
    ∃ u v, palette1bit = u ++ applyColorMode 10 10 10 "1bit" :: v ∧
      (∀ p ∈ u, distSq (10, 10, 10) (applyColorMode 10 10 10 "1bit") < distSq (10, 10, 10) p) ∧
      (∀ p ∈ palette1bit,
        distSq (10, 10, 10) (applyColorMode 10 10 10 "1bit") ≤ distSq (10, 10, 10) p) :=
  C3_nearest_palette.1 10 10 10 "1bit" palette1bit (by decide) (by decide) (by decide)
    (by decide) (by decide) (by decide) (by decide) rfl

/-- C4: grayscale mode returns the triple (L, L, L) with
L = round(0.299 r + 0.587 g + 0.114 b), with exactly those
coefficients; in particular black maps to black and white to white. -/
theorem C4_grayscale :
    (∀ r g b : ℤ, 0 ≤ r → r ≤ 255 → 0 ≤ g → g ≤ 255 → 0 ≤ b → b ≤ 255 →
        applyColorMode r g b "grayscale" =
          (jsRound ((0.299 : ℚ) * r + (0.587 : ℚ) * g + (0.114 : ℚ) * b),
           jsRound ((0.299 : ℚ) * r + (0.587 : ℚ) * g + (0.114 : ℚ) * b),
           jsRound ((0.299 : ℚ) * r + (0.587 : ℚ) * g + (0.114 : ℚ) * b))) ∧
    applyColorMode 0 0 0 "grayscale" = (0, 0, 0) ∧
    applyColorMode 255 255 255 "grayscale" = (255, 255, 255) := by
  have hgen : ∀ r g b : ℤ,
      applyColorMode r g b "grayscale" =
        (jsRound ((0.299 : ℚ) * r + (0.587 : ℚ) * g + (0.114 : ℚ) * b),
         jsRound ((0.299 : ℚ) * r + (0.587 : ℚ) * g + (0.114 : ℚ) * b),
         jsRound ((0.299 : ℚ) * r + (0.587 : ℚ) * g + (0.114 : ℚ) * b)) := by
    intro r g b
    rfl
  refine ⟨fun r g b _ _ _ _ _ _ => hgen r g b, ?_, ?_⟩
  · rw [hgen]
    have : jsRound ((0.299 : ℚ) * (0 : ℤ) + (0.587 : ℚ) * (0 : ℤ) + (0.114 : ℚ) * (0 : ℤ)) = 0 := by
      unfold jsRound
      norm_num
    rw [this]
  · rw [hgen]
    have : jsRound ((0.299 : ℚ) * (255 : ℤ) + (0.587 : ℚ) * (255 : ℤ) + (0.114 : ℚ) * (255 : ℤ)) = 255 := by
      unfold jsRound
      norm_num
    rw [this]

theorem C4_grayscale_witness :
    applyColorMode 12 34 56 "grayscale" =
      (jsRound ((0.299 : ℚ) * (12 : ℤ) + (0.587 : ℚ) * (34 : ℤ) + (0.114 : ℚ) * (56 : ℤ)),
       jsRound ((0.299 : ℚ) * (12 : ℤ) + (0.587 : ℚ) * (34 : ℤ) + (0.114 : ℚ) * (56 : ℤ)),
       jsRound ((0.299 : ℚ) * (12 : ℤ) + (0.587 : ℚ) * (34 : ℤ) + (0.114 : ℚ) * (56 : ℤ))) :=
  C4_grayscale.1 12 34 56 (by decide) (by decide) (by decide) (by decide) (by decide)
    (by decide)

/-- C9: full mode is the identity on every channel triple in range,
and any unrecognized mode string falls through the palette lookup to
the identity as well. -/
theorem C9_full_identity :
    (∀ r g b : ℤ, 0 ≤ r → r ≤ 255 → 0 ≤ g → g ≤ 255 → 0 ≤ b → b ≤ 255 →
        applyColorMode r g b "full" = (r, g, b)) ∧
    (∀ (r g b : ℤ) (mode : String),
        mode ∉ (["full", "grayscale", "16", "8", "1bit"] : List String) →
        applyColorMode r g b mode = (r, g, b)) := by
  constructor
  · intro r g b _ _ _ _ _ _
    rfl
  · intro r g b mode hmode
    simp only [List.mem_cons, List.not_mem_nil, or_false, not_or] at hmode
    obtain ⟨hfull, hgray, h16, h8, h1bit⟩ := hmode
    unfold applyColorMode
    rw [if_neg hfull, if_neg hgray]
    unfold palettes
    rw [if_neg h16, if_neg h8, if_neg h1bit]

theorem C9_full_identity_witness :
    applyColorMode 1 2 3 "full" = (1, 2, 3) ∧
    applyColorMode 1 2 3 "sepia" = (1, 2, 3) :=
  ⟨C9_full_identity.1 1 2 3 (by decide) (by decide) (by decide) (by decide) (by decide)
      (by decide),
    C9_full_identity.2 1 2 3 "sepia" (by decide)⟩

/-- C10: in each of the three palette modes the result of
applyColorMode is a member of the fixed palette of that mode, the
reduction is idempotent (the second application returns its own input),
and every palette entry is a fixed point. -/
theorem C10_palette_idempotent :
    ∀ (r g b : ℤ) (mode : String) (pal : List RGB),
      0 ≤ r → r ≤ 255 → 0 ≤ g → g ≤ 255 → 0 ≤ b → b ≤ 255 →
      mode ∈ (["16", "8", "1bit"] : List String) →
      palettes mode = some pal →
      applyColorMode r g b mode ∈ pal ∧
      applyColorMode (applyColorMode r g b mode).1 (applyColorMode r g b mode).2.1
          (applyColorMode r g b mode).2.2 mode = applyColorMode r g b mode ∧
      (∀ p ∈ pal, applyColorMode p.1 p.2.1 p.2.2 mode = p) := by
  intro r g b mode pal _ _ _ _ _ _ hmode hpal
  obtain ⟨h1, h2, p₀, ps, rfl⟩ := palette_mode_cases hmode hpal
  have hfix : ∀ p ∈ p₀ :: ps, applyColorMode p.1 p.2.1 p.2.2 mode = p := by
    intro p hp
    rw [applyColorMode_eq_findNearest h1 h2 hpal]
    exact findNearest_fixed p₀ ps hp
  have hmem : applyColorMode r g b mode ∈ p₀ :: ps := by
    rw [applyColorMode_eq_findNearest h1 h2 hpal]
    exact findNearest_mem (r, g, b) p₀ ps
  exact ⟨hmem, hfix _ hmem, hfix⟩

theorem C10_palette_idempotent_witness :
    applyColorMode 100 100 100 "16" ∈ palette16 ∧
    applyColorMode (applyColorMode 100 100 100 "16").1 (applyColorMode 100 100 100 "16").2.1
        (applyColorMode 100 100 100 "16").2.2 "16" = applyColorMode 100 100 100 "16" ∧
    (∀ p ∈ palette16, applyColorMode p.1 p.2.1 p.2.2 "16" = p) :=
  C10_palette_idempotent 100 100 100 "16" palette16 (by decide) (by decide) (by decide)
    (by decide) (by decide) (by decide) (by decide) rfl

/-- A 3 by 3 black test image. -/
def img3 : Image := ⟨3, 3, fun _ _ => (0, 0, 0)⟩

/-- A 4 by 4 black test image. -/
def img4 : Image := ⟨4, 4, fun _ _ => (0, 0, 0)⟩

/-- A 64 by 64 black test image. -/
def img64 : Image := ⟨64, 64, fun _ _ => (0, 0, 0)⟩

/-- An extreme-aspect 10000 by 8 black test image. -/
def imgWide : Image := ⟨10000, 8, fun _ _ => (0, 0, 0)⟩

/-- A tiny well-formed 2 by 2 grid state. -/
def gridTwo : DrawGrid := ⟨2, 2, [[' ', ' '], [' ', ' ']]⟩

/-- C2 counterexample: an options record with pixelSize 100 is neither
replaced by the default 8 nor constrained to [2, 32]; pixelate uses 100
as is, so a 64 by 64 image yields a 0-wide output, while the default 8
(or a clamp to 32) would yield width 64. -/
theorem C2_counterexample :
    Options.effPixelSize ⟨some 100, none, none⟩ = 100 ∧
    ¬(Options.effPixelSize ⟨some 100, none, none⟩ ≤ 32) ∧
    Options.effPixelSize ⟨some 100, none, none⟩ ≠ 8 ∧
    (pixelate img64 ⟨some 100, none, none⟩).width = 0 ∧
    (pixelate img64 ⟨some 8, none, none⟩).width = 64 ∧
    (pixelate img64 ⟨some 32, none, none⟩).width = 64 := by
  refine ⟨rfl, by decide, by decide, ?_, ?_, ?_⟩
  · show canvasW img64 100 = 0
    simp only [canvasW, sampleW, sampleH, scaleFactor, img64]
    norm_num
  · show canvasW img64 8 = 64
    simp only [canvasW, sampleW, sampleH, scaleFactor, img64]
    norm_num
  · show canvasW img64 32 = 64
    simp only [canvasW, sampleW, sampleH, scaleFactor, img64]
    norm_num

/-- C2 amended: pixelate substitutes the documented default for any
absent or falsy option field (pixelSize 8 when absent or 0, colorMode
full when absent or empty, showGrid false when absent), each field
independently of the others, and the defaulting is a total function of
the record; but pixelSize is not constrained to [2, 32]: any nonzero
value, in range or not, is used as is. -/
theorem C2_option_defaults :
    (∀ o : Options, o.pixelSize = none ∨ o.pixelSize = some 0 → o.effPixelSize = 8) ∧
    (∀ o : Options, o.colorMode = none ∨ o.colorMode = some "" → o.effColorMode = "full") ∧
    (∀ o : Options, o.showGrid = none → o.effShowGrid = false) ∧
    (∀ o o' : Options, o.pixelSize = o'.pixelSize → o.effPixelSize = o'.effPixelSize) ∧
    (∀ o o' : Options, o.colorMode = o'.colorMode → o.effColorMode = o'.effColorMode) ∧
    (∀ o o' : Options, o.showGrid = o'.showGrid → o.effShowGrid = o'.effShowGrid) ∧
    (∀ v : ℤ, v ≠ 0 → Options.effPixelSize ⟨some v, none, none⟩ = v) ∧
    (∀ (img : Image) (o : Options),
      pixelate img o = pixelateCore img o.effPixelSize o.effColorMode o.effShowGrid) := by
  refine ⟨?_, ?_, ?_, ?_, ?_, ?_, ?_, fun _ _ => rfl⟩
  · rintro o (h | h) <;> simp [Options.effPixelSize, h]
  · rintro o (h | h) <;> simp [Options.effColorMode, h]
  · intro o h; simp [Options.effShowGrid, h]
  · intro o o' h; simp [Options.effPixelSize, h]
  · intro o o' h; simp [Options.effColorMode, h]
  · intro o o' h; simp [Options.effShowGrid, h]
  · intro v hv; simp [Options.effPixelSize, hv]

theorem C2_option_defaults_witness :
    Options.effPixelSize ⟨none, none, none⟩ = 8 ∧
    Options.effColorMode ⟨none, none, none⟩ = "full" ∧
    Options.effShowGrid ⟨none, none, none⟩ = false ∧
    Options.effPixelSize ⟨some 100, none, none⟩ = 100 :=
  ⟨C2_option_defaults.1 ⟨none, none, none⟩ (Or.inl rfl),
   C2_option_defaults.2.1 ⟨none, none, none⟩ (Or.inl rfl),
   C2_option_defaults.2.2.1 ⟨none, none, none⟩ rfl,
   C2_option_defaults.2.2.2.2.2.2.1 100 (by decide)⟩

/-- C6: pixelate is a pure, deterministic function of the image and the
options: two invocations on the same inputs return identical rasters
(equal dimensions and byte-identical pixel content); the engine holds
no mutable state between invocations. -/
theorem C6_deterministic :
    ∀ (img₁ img₂ : Image) (o₁ o₂ : Options),
      img₁ = img₂ → o₁ = o₂ → pixelate img₁ o₁ = pixelate img₂ o₂ := by
  intro _ _ _ _ h1 h2
  rw [h1, h2]

theorem C6_deterministic_witness :
    pixelate img64 ⟨some 8, some "16", some true⟩ =
      pixelate img64 ⟨some 8, some "16", some true⟩ :=
  C6_deterministic img64 img64 ⟨some 8, some "16", some true⟩
    ⟨some 8, some "16", some true⟩ rfl rfl

/-- C7: resize clamps the width to [10, 200] and the height to
[5, 100], discards all content, resets every cell to a blank,
and a subsequent serialize yields exactly the clamped number of rows,
each exactly the clamped width of blanks followed by one newline,
including after the last row. -/
theorem C7_resize_serialize :
    ∀ (g : DrawGrid) (w h : ℤ),
      ((g.resize w h).width : ℤ) = max 10 (min 200 w) ∧
      ((g.resize w h).height : ℤ) = max 5 (min 100 h) ∧
      10 ≤ (g.resize w h).width ∧ (g.resize w h).width ≤ 200 ∧
      5 ≤ (g.resize w h).height ∧ (g.resize w h).height ≤ 100 ∧
      (g.resize w h).cells =
        List.replicate (g.resize w h).height
          (List.replicate (g.resize w h).width ' ') ∧
      (g.resize w h).getAscii =
        (List.replicate (g.resize w h).height
          (List.replicate (g.resize w h).width ' ' ++ ['\n'])).flatten := by
  intro g w h
  have hwnn : (0 : ℤ) ≤ max 10 (min 200 w) := le_trans (by norm_num) (le_max_left _ _)
  have hhnn : (0 : ℤ) ≤ max 5 (min 100 h) := le_trans (by norm_num) (le_max_left _ _)
  have hw : ((g.resize w h).width : ℤ) = max 10 (min 200 w) := Int.toNat_of_nonneg hwnn
  have hh : ((g.resize w h).height : ℤ) = max 5 (min 100 h) := Int.toNat_of_nonneg hhnn
  have hwlo : 10 ≤ (g.resize w h).width := by omega
  have hwhi : (g.resize w h).width ≤ 200 := by
    have : ((g.resize w h).width : ℤ) ≤ 200 := by
      rw [hw]; exact max_le (by norm_num) (le_trans (min_le_left _ _) (by norm_num))
    omega
  have hhlo : 5 ≤ (g.resize w h).height := by omega
  have hhhi : (g.resize w h).height ≤ 100 := by
    have : ((g.resize w h).height : ℤ) ≤ 100 := by
      rw [hh]; exact max_le (by norm_num) (le_trans (min_le_left _ _) (by norm_num))
    omega
  have hcells : (g.resize w h).cells =
      List.replicate (g.resize w h).height (List.replicate (g.resize w h).width ' ') := rfl
  refine ⟨hw, hh, hwlo, hwhi, hhlo, hhhi, hcells, ?_⟩
  have hwf : (g.resize w h).Wf := by
    refine ⟨by simp [hcells], ?_⟩
    intro row hrow
    rw [hcells] at hrow
    rw [List.eq_of_mem_replicate hrow]
    simp
  rw [DrawGrid.getAscii_eq_rows _ hwf, hcells, flatMap_replicate]

/-- C8: setCell with in-range coordinates makes serialize show the
written character at row y, column x (offset y * (width + 1) + x of the
serialized text); setCell with out-of-range coordinates is a no-op that
leaves the state, and hence the serialize output, unchanged. -/
theorem C8_setCell :
    ∀ (g : DrawGrid) (x y : ℤ) (c : Char), g.Wf →
      ((0 ≤ x ∧ x < (g.width : ℤ) ∧ 0 ≤ y ∧ y < (g.height : ℤ)) →
        (g.setCell x y c).getAscii.get? (y.toNat * (g.width + 1) + x.toNat) = some c) ∧
      (¬(0 ≤ x ∧ x < (g.width : ℤ) ∧ 0 ≤ y ∧ y < (g.height : ℤ)) →
        g.setCell x y c = g ∧ (g.setCell x y c).getAscii = g.getAscii) := by
  intro g x y c hwf
  obtain ⟨hlen, hrows⟩ := hwf
  constructor
  · intro hin
    obtain ⟨hx0, hxw, hy0, hyh⟩ := hin
    have hylt : y.toNat < g.cells.length := by omega
    obtain ⟨r, hr⟩ : ∃ r, g.cells.get? y.toNat = some r :=
      ⟨_, List.get?_eq_get hylt⟩
    have hgetD : g.cells.getD y.toNat [] = r := by
      rw [List.getD_eq_get?, hr]
      rfl
    have hrmem : r ∈ g.cells := List.get?_mem hr
    have hrlen : r.length = g.width := hrows r hrmem
    have hset : g.setCell x y c =
        { g with cells := g.cells.set y.toNat (r.set x.toNat c) } := by
      unfold DrawGrid.setCell
      rw [if_pos ⟨hx0, hxw, hy0, hyh⟩, hgetD]
    have hwf2 : ∀ row ∈ g.cells.set y.toNat (r.set x.toNat c), row.length = g.width := by
      intro row hrow
      rcases List.mem_or_eq_of_mem_set hrow with hmem | heq
      · exact hrows row hmem
      · rw [heq, List.length_set]
        exact hrlen
    have hAscii : (g.setCell x y c).getAscii =
        (g.cells.set y.toNat (r.set x.toNat c)).flatMap (fun row => row ++ ['\n']) := by
      rw [hset]
      exact DrawGrid.getAscii_eq_rows _ ⟨by simp [hlen], hwf2⟩
    have hxlt : x.toNat < g.width + 1 := by omega
    rw [hAscii, flatMap_rows_get (g.cells.set y.toNat (r.set x.toNat c)) g.width
      y.toNat x.toNat hwf2 hxlt]
    have hset_get : (g.cells.set y.toNat (r.set x.toNat c)).get? y.toNat =
        some (r.set x.toNat c) := by
      rw [List.get?_set_eq, hr]
      rfl
    rw [hset_get, Option.some_bind]
    have hxr : x.toNat < (r.set x.toNat c).length := by
      rw [List.length_set, hrlen]
      omega
    rw [List.get?_append hxr]
    obtain ⟨a, ha⟩ : ∃ a, r.get? x.toNat = some a :=
      ⟨_, List.get?_eq_get (by omega : x.toNat < r.length)⟩
    rw [List.get?_set_eq, ha]
    rfl
  · intro hout
    have hne : g.setCell x y c = g := by
      unfold DrawGrid.setCell
      rw [if_neg hout]
    exact ⟨hne, by rw [hne]⟩

theorem C8_setCell_witness :
    (gridTwo.setCell 1 0 '#').getAscii.get?
        ((0 : ℤ).toNat * (gridTwo.width + 1) + (1 : ℤ).toNat) = some '#' ∧
    gridTwo.setCell 5 0 '#' = gridTwo ∧
    (gridTwo.setCell 5 0 '#').getAscii = gridTwo.getAscii := by
  have hwf : gridTwo.Wf := ⟨by decide, by decide⟩
  exact ⟨(C8_setCell gridTwo 1 0 '#' hwf).1 (by decide),
    ((C8_setCell gridTwo 5 0 '#' hwf).2 (by decide)).1,
    ((C8_setCell gridTwo 5 0 '#' hwf).2 (by decide)).2⟩

/-- C5: with showGrid on, the grid overlay runs exactly when both
computed block dimensions are at least 3; whenever blockW < 3 or
blockH < 3 the overlay is skipped entirely, so every output pixel —
including those at the expected grid positions — is exactly the block
fill from the paint pass. -/
theorem C5_grid_threshold :
    ∀ (img : Image) (o : Options), o.effShowGrid = true →
      ((3 ≤ blockW img o.effPixelSize ∧ 3 ≤ blockH img o.effPixelSize) →
        (pixelate img o).pix =
          gridPass img o.effPixelSize (paintBlocks img o.effPixelSize o.effColorMode)) ∧
      ((blockW img o.effPixelSize < 3 ∨ blockH img o.effPixelSize < 3) →
        (pixelate img o).pix = paintBlocks img o.effPixelSize o.effColorMode) := by
  intro img o hg
  have hpix : (pixelate img o).pix =
      if o.effShowGrid = true ∧ 3 ≤ blockW img o.effPixelSize ∧
          3 ≤ blockH img o.effPixelSize then
        gridPass img o.effPixelSize (paintBlocks img o.effPixelSize o.effColorMode)
      else paintBlocks img o.effPixelSize o.effColorMode := rfl
  constructor
  · intro h
    rw [hpix, if_pos ⟨hg, h.1, h.2⟩]
  · intro h
    rw [hpix, if_neg ?_]
    rintro ⟨-, h3, h4⟩
    rcases h with h5 | h5
    · exact absurd h3 (not_le.mpr h5)
    · exact absurd h4 (not_le.mpr h5)

theorem blockW_img4_small :
    blockW img4 (Options.effPixelSize ⟨some 2, none, some true⟩) < 3 := by
  show blockW img4 2 < 3
  simp only [blockW, canvasW, sampleW, sampleH, scaleFactor, img4]
  norm_num

theorem C5_grid_threshold_witness :
    (pixelate img4 ⟨some 2, none, some true⟩).pix =
      paintBlocks img4 (Options.effPixelSize ⟨some 2, none, some true⟩)
        (Options.effColorMode ⟨some 2, none, some true⟩) :=
  (C5_grid_threshold img4 ⟨some 2, none, some true⟩ rfl).2 (Or.inl blockW_img4_small)

/-- C1 counterexample: a 3 by 3 image with the valid pixelSize 8 gives
a sample grid dimension of 0 — not clamped to 1 — and an output raster
of width 0, outside [1, 400]; and even with both sample dimensions at
least 1, a 10000 by 8 image at pixelSize 2 gives output height 0. -/
theorem C1_counterexample :
    (1 ≤ img3.width ∧ 1 ≤ img3.height ∧
      2 ≤ Options.effPixelSize ⟨some 8, none, none⟩ ∧
      Options.effPixelSize ⟨some 8, none, none⟩ ≤ 32) ∧
    sampleW img3 (Options.effPixelSize ⟨some 8, none, none⟩) = 0 ∧
    (pixelate img3 ⟨some 8, none, none⟩).width = 0 ∧
    (1 ≤ imgWide.width ∧ 1 ≤ imgWide.height ∧
      2 ≤ Options.effPixelSize ⟨some 2, none, none⟩ ∧
      Options.effPixelSize ⟨some 2, none, none⟩ ≤ 32) ∧
    1 ≤ sampleW imgWide (Options.effPixelSize ⟨some 2, none, none⟩) ∧
    1 ≤ sampleH imgWide (Options.effPixelSize ⟨some 2, none, none⟩) ∧
    (pixelate imgWide ⟨some 2, none, none⟩).height = 0 := by
  refine ⟨by decide, ?_, ?_, by decide, ?_, ?_, ?_⟩
  · show sampleW img3 8 = 0
    simp only [sampleW, img3]
    norm_num
  · show canvasW img3 8 = 0
    simp only [canvasW, sampleW, sampleH, scaleFactor, img3]
    norm_num
  · show 1 ≤ sampleW imgWide 2
    simp only [sampleW, imgWide]
    norm_num
  · show 1 ≤ sampleH imgWide 2
    simp only [sampleH, imgWide]
    norm_num
  · show canvasH imgWide 2 = 0
    simp only [canvasH, sampleW, sampleH, scaleFactor, imgWide]
    norm_num

theorem canvas_bounds (img : Image) (ps : ℤ)
    (hps2 : 2 ≤ ps)
    (hpw : ps ≤ (img.width : ℤ)) (hph : ps ≤ (img.height : ℤ))
    (hasp1 : sampleH img ps ≤ 400 * sampleW img ps)
    (hasp2 : sampleW img ps ≤ 400 * sampleH img ps) :
    1 ≤ canvasW img ps ∧ canvasW img ps ≤ 400 ∧
      1 ≤ canvasH img ps ∧ canvasH img ps ≤ 400 := by
  have hpsQ : (2 : ℚ) ≤ (ps : ℚ) := by exact_mod_cast hps2
  have hpspos : (0 : ℚ) < (ps : ℚ) := by linarith
  have hsW : 1 ≤ sampleW img ps := by
    unfold sampleW
    rw [Int.le_floor]
    push_cast
    rw [le_div_iff hpspos]
    have : (ps : ℚ) ≤ (img.width : ℚ) := by exact_mod_cast hpw
    linarith
  have hsH : 1 ≤ sampleH img ps := by
    unfold sampleH
    rw [Int.le_floor]
    push_cast
    rw [le_div_iff hpspos]
    have : (ps : ℚ) ≤ (img.height : ℚ) := by exact_mod_cast hph
    linarith
  have hA1 : (1 : ℚ) ≤ (sampleW img ps : ℚ) := by exact_mod_cast hsW
  have hB1 : (1 : ℚ) ≤ (sampleH img ps : ℚ) := by exact_mod_cast hsH
  have hApos : (0 : ℚ) < (sampleW img ps : ℚ) := by linarith
  have hBpos : (0 : ℚ) < (sampleH img ps : ℚ) := by linarith
  have hBA : (sampleH img ps : ℚ) ≤ 400 * (sampleW img ps : ℚ) := by exact_mod_cast hasp1
  have hAB : (sampleW img ps : ℚ) ≤ 400 * (sampleH img ps : ℚ) := by exact_mod_cast hasp2
  set A : ℚ := ((sampleW img ps : ℤ) : ℚ) with hAdef
  set B : ℚ := ((sampleH img ps : ℤ) : ℚ) with hBdef
  have hscale : scaleFactor (sampleW img ps) (sampleH img ps) ps
      = min (400 / A) (min (400 / B) (ps : ℚ)) := by
    unfold scaleFactor
    rw [if_neg (by omega : ¬sampleW img ps = 0),
      if_neg (by omega : ¬sampleH img ps = 0)]
  set s : ℚ := min (400 / A) (min (400 / B) (ps : ℚ)) with hsdef
  have hsW400 : s ≤ 400 / A := min_le_left _ _
  have hsH400 : s ≤ 400 / B := le_trans (min_le_right _ _) (min_le_left _ _)
  have hWup : A * s ≤ 400 := by
    have h := mul_le_mul_of_nonneg_left hsW400 (le_of_lt hApos)
    rwa [mul_div_cancel₀ _ (ne_of_gt hApos)] at h
  have hHup : B * s ≤ 400 := by
    have h := mul_le_mul_of_nonneg_left hsH400 (le_of_lt hBpos)
    rwa [mul_div_cancel₀ _ (ne_of_gt hBpos)] at h
  have hlow : 1 ≤ A * s ∧ 1 ≤ B * s := by
    rcases min_cases (400 / A) (min (400 / B) (ps : ℚ)) with ⟨h1, -⟩ | ⟨h1, -⟩
    · constructor
      · rw [hsdef, h1, mul_div_cancel₀ _ (ne_of_gt hApos)]
        norm_num
      · have hBr : B * (400 / A) = (B * 400) / A := by ring
        rw [hsdef, h1, hBr, le_div_iff hApos]
        linarith
    · rcases min_cases (400 / B) (ps : ℚ) with ⟨h2, -⟩ | ⟨h2, -⟩
      · constructor
        · have hAr : A * (400 / B) = (A * 400) / B := by ring
          rw [hsdef, h1, h2, hAr, le_div_iff hBpos]
          linarith
        · rw [hsdef, h1, h2, mul_div_cancel₀ _ (ne_of_gt hBpos)]
          norm_num
      · constructor
        · rw [hsdef, h1, h2]
          nlinarith
        · rw [hsdef, h1, h2]
          nlinarith
  have h400 : ⌊(400 : ℚ)⌋ = 400 := by norm_num
  have hcw : canvasW img ps = ⌊A * s⌋ := by
    unfold canvasW
    rw [hscale]
  have hch : canvasH img ps = ⌊B * s⌋ := by
    unfold canvasH
    rw [hscale]
  refine ⟨?_, ?_, ?_, ?_⟩
  · rw [hcw]
    exact Int.le_floor.mpr (by push_cast; exact hlow.1)
  · rw [hcw]
    have h := Int.floor_le_floor hWup
    rw [h400] at h
    exact h
  · rw [hch]
    exact Int.le_floor.mpr (by push_cast; exact hlow.2)
  · rw [hch]
    have h := Int.floor_le_floor hHup
    rw [h400] at h
    exact h

/-- C1 amended: for every image and pixelSize in [2, 32] with both
sample grid dimensions at least 1 (pixelSize at most each image
dimension) and neither sample dimension more than 400 times the other,
pixelate returns an output raster with both dimensions in [1, 400]; but
in the degenerate case pixelSize > dimension the sample grid dimension
is 0 — it is not clamped to 1 — and the corresponding output dimension
is 0 (and the evaluation is total: the embedding never gets stuck). -/
theorem C1_output_bounds :
    (∀ (img : Image) (ps : ℤ),
        2 ≤ ps → ps ≤ 32 →
        ps ≤ (img.width : ℤ) → ps ≤ (img.height : ℤ) →
        sampleH img ps ≤ 400 * sampleW img ps →
        sampleW img ps ≤ 400 * sampleH img ps →
        1 ≤ (pixelate img ⟨some ps, none, none⟩).width ∧
        (pixelate img ⟨some ps, none, none⟩).width ≤ 400 ∧
        1 ≤ (pixelate img ⟨some ps, none, none⟩).height ∧
        (pixelate img ⟨some ps, none, none⟩).height ≤ 400) ∧
    (∀ (img : Image) (ps : ℤ),
        2 ≤ ps → (img.width : ℤ) < ps →
        sampleW img ps = 0 ∧ (pixelate img ⟨some ps, none, none⟩).width = 0) := by
  constructor
  · intro img ps hps2 _ hpw hph hasp1 hasp2
    have hps0 : ps ≠ 0 := by omega
    have heff : Options.effPixelSize ⟨some ps, none, none⟩ = ps := by
      simp [Options.effPixelSize, hps0]
    have hwidth : (pixelate img ⟨some ps, none, none⟩).width = canvasW img ps := by
      show canvasW img (Options.effPixelSize ⟨some ps, none, none⟩) = canvasW img ps
      rw [heff]
    have hheight : (pixelate img ⟨some ps, none, none⟩).height = canvasH img ps := by
      show canvasH img (Options.effPixelSize ⟨some ps, none, none⟩) = canvasH img ps
      rw [heff]
    rw [hwidth, hheight]
    exact canvas_bounds img ps hps2 hpw hph hasp1 hasp2
  · intro img ps hps2 hdeg
    have hps0 : ps ≠ 0 := by omega
    have heff : Options.effPixelSize ⟨some ps, none, none⟩ = ps := by
      simp [Options.effPixelSize, hps0]
    have hpspos : (0 : ℚ) < (ps : ℚ) := by
      have : (0 : ℤ) < ps := by omega
      exact_mod_cast this
    have hsW0 : sampleW img ps = 0 := by
      unfold sampleW
      rw [Int.floor_eq_zero_iff]
      constructor
      · positivity
      · rw [div_lt_one hpspos]
        exact_mod_cast hdeg
    refine ⟨hsW0, ?_⟩
    have hwidth : (pixelate img ⟨some ps, none, none⟩).width = canvasW img ps := by
      show canvasW img (Options.effPixelSize ⟨some ps, none, none⟩) = canvasW img ps
      rw [heff]
    rw [hwidth]
    unfold canvasW
    rw [hsW0]
    norm_num

theorem sampleW_img64 : sampleW img64 8 = 8 := by
  simp only [sampleW, img64]
  norm_num

theorem sampleH_img64 : sampleH img64 8 = 8 := by
  simp only [sampleH, img64]
  norm_num

theorem C1_output_bounds_witness :
    1 ≤ (pixelate img64 ⟨some 8, none, none⟩).width ∧
    (pixelate img64 ⟨some 8, none, none⟩).width ≤ 400 ∧
    1 ≤ (pixelate img64 ⟨some 8, none, none⟩).height ∧
    (pixelate img64 ⟨some 8, none, none⟩).height ≤ 400 :=
  C1_output_bounds.1 img64 8 (by decide) (by decide) (by decide) (by decide)
    (by rw [sampleW_img64, sampleH_img64]; decide)
    (by rw [sampleW_img64, sampleH_img64]; decide)

end BitsKee
